import Mathlib

/-!
Verification of the coin-shuffle service against its specification.

The development shallowly embeds the service's Rust sources:

* `src/waiter/queue.rs` and `src/waiter/mod.rs` — the matchmaking waiter
  (`QueuesStorage`, `Waiter`);
* `src/service/room.rs` — the room session actor (`RoomConn`, `handleEvent`,
  `run`);
* `src/service/mod.rs` — the room registry (`getRoomStream`);
* `src/service/auth.rs` — the join-signature verifier and the token service
  (`verifyJoinSignature`, `TokensGenerator`);
* `src/cli/actions.rs` and `src/config/tokens.rs` — service bootstrap
  (`Config`, `runServiceService`);
* `src/database/queues.rs` — the persistent queue storage (`popFromQueue`).

Machine integers (`U256`, `u64`, addresses, uuids) are modelled as `Nat`:
the service only compares them for equality and uses them as map keys, so no
overflow behaviour is observable.  Hash maps keyed by such integers are
modelled either as total functions with pointwise update or as
insertion-ordered duplicate-free lists of keys.  External cryptographic
primitives (ECDSA decoding and recovery, JWT encoding) are taken as
parameters.  Operations of the external `coin_shuffle_core` crate, which is
not part of this repository's sources, are modelled from the specification
and marked `Modelled from the spec:` in their doc comments.
-/

/-! ## Waiter (`src/waiter/queue.rs`, `src/waiter/mod.rs`) -/

/-- Key of a waiting queue: the pair (ERC20 token address, amount), both
modelled as `Nat`. -/
abbrev QueueKey := Nat × Nat

/-- Embedding of `QueuesStorage` (`src/waiter/queue.rs`): a map from
`(token, amount)` to the vector of waiting utxo ids, defaulting to the empty
vector (`entry(..).or_insert_with(Vec::new)`). -/
structure QueuesStorage where
  queues : QueueKey → List Nat

/-- Embedding of `QueuesStorage::new`. -/
def QueuesStorage.new : QueuesStorage := ⟨fun _ => []⟩

/-- Embedding of `QueuesStorage::push`: append the utxo id at the tail of the
queue for the key. -/
def QueuesStorage.push (s : QueuesStorage) (token amount utxoId : Nat) :
    QueuesStorage :=
  ⟨fun k => if k = (token, amount) then s.queues (token, amount) ++ [utxoId]
            else s.queues k⟩

/-- Embedding of `QueuesStorage::pop`: return the whole queue for the key and
clear it. -/
def QueuesStorage.pop (s : QueuesStorage) (token amount : Nat) :
    List Nat × QueuesStorage :=
  (s.queues (token, amount),
   ⟨fun k => if k = (token, amount) then [] else s.queues k⟩)

/-- Embedding of `QueuesStorage::len`. -/
def QueuesStorage.len (s : QueuesStorage) (token amount : Nat) : Nat :=
  (s.queues (token, amount)).length

/-- Embedding of `Waiter` (`src/waiter/mod.rs`). -/
structure Waiter where
  queue : QueuesStorage
  minParticipants : Nat

/-- Embedding of `Waiter::new`. -/
def Waiter.new (minParticipants : Nat) : Waiter :=
  ⟨QueuesStorage.new, minParticipants⟩

/-- Embedding of `Waiter::is_filled`. -/
def Waiter.isFilled (w : Waiter) (token amount : Nat) : Bool :=
  w.minParticipants ≤ w.queue.len token amount

/-- Embedding of `Waiter::add_participant`: push, then if the queue is
filled pop it whole and return the batch, else return `none`. -/
def Waiter.addParticipant (w : Waiter) (token amount participant : Nat) :
    Option (List Nat) × Waiter :=
  let q1 := w.queue.push token amount participant
  let w1 : Waiter := ⟨q1, w.minParticipants⟩
  if w1.isFilled token amount then
    let (batch, q2) := q1.pop token amount
    (some batch, ⟨q2, w.minParticipants⟩)
  else
    (none, w1)

/-- Run a sequence of `add_participant` calls, returning the final waiter
state. -/
def Waiter.runAdds (w : Waiter) : List (QueueKey × Nat) → Waiter
  | [] => w
  | (k, p) :: rest => ((w.addParticipant k.1 k.2 p).2).runAdds rest

/-! ## Room registry (`src/service/mod.rs`, `get_room_stream`) -/

/-- Embedding of the process-wide room registry
`Arc<Mutex<HashMap<Uuid, StreamSender<RoomEvents>>>>`: the insertion-ordered
list of room ids that own a spawned actor.  The sender of a room's event
channel is identified by the room id, since each room owns exactly one
channel. -/
structure RoomRegistry where
  entries : List Nat

/-- Result of `get_room_stream`: the updated registry, the returned optional
sender, and whether a new room actor task was spawned by this call. -/
structure GetRoomStreamResult where
  registry : RoomRegistry
  sender : Option Nat
  spawned : Bool

/-- Embedding of `Service::get_room_stream` (`src/service/mod.rs` lines
319–342).  If the registry entry for `room_id` is vacant, the code creates a
bounded channel, constructs a `RoomConnection`, spawns its task, inserts the
sender and returns it; otherwise it clones the existing sender.  The backing
storage is threaded as a parameter to record that the source never reads it:
no branch of the function consults `storage`. -/
def getRoomStream (reg : RoomRegistry) (storage : Nat → Option Nat)
    (roomId : Nat) : GetRoomStreamResult :=
  if roomId ∈ reg.entries then
    { registry := reg, sender := some roomId, spawned := false }
  else
    { registry := ⟨reg.entries ++ [roomId]⟩, sender := some roomId,
      spawned := true }

/-! ## Join-signature verifier (`src/service/auth.rs`) -/

/-- Big-endian 32-byte encoding of a `U256` value
(`U256::to_big_endian`). -/
def u256BeBytes (v : Nat) : List Nat :=
  (List.range 32).map fun i => v / 256 ^ (31 - i) % 256

/-- Big-endian 8-byte encoding of a `u64` value (`u64::to_be_bytes`). -/
def u64BeBytes (v : Nat) : List Nat :=
  (List.range 8).map fun i => v / 256 ^ (7 - i) % 256

/-- The 40-byte message signed by a joiner:
`utxo_id_be(32) ‖ timestamp_be(8)` (`src/service/auth.rs` lines 23–26). -/
def joinMessage (utxoId timestamp : Nat) : List Nat :=
  u256BeBytes utxoId ++ u64BeBytes timestamp

/-- Embedding of `JoinSignatureError` merged with the `Ok` outcome. -/
inductive JoinVerifyResult where
  | ok : JoinVerifyResult
  | invalidSignature : JoinVerifyResult
  | invalidTimestamp : Nat → JoinVerifyResult
deriving DecidableEq, Repr

/-- Embedding of `verify_join_signature` (`src/service/auth.rs` lines
17–45).  The external primitives are parameters: `decode` is
`ethers_core::types::Signature::decode` (RLP), `verify` is
`Signature::verify`, which recovers the signer address from the signature
over the message and compares it with `owner`; `now` is the server clock in
seconds since the epoch.  `now.duration_since(t)` fails exactly when `t` is
strictly later than `now`. -/
def verifyJoinSignature (Sig : Type) (decode : List Nat → Option Sig)
    (verify : Sig → List Nat → Nat → Bool) (now : Nat)
    (utxoId : Nat) (timestamp : Nat) (signature : List Nat) (owner : Nat) :
    JoinVerifyResult :=
  let message := joinMessage utxoId timestamp
  match decode signature with
  | none => .invalidSignature
  | some s =>
    if now < timestamp then .invalidTimestamp timestamp
    else if verify s message owner then .ok
    else .invalidSignature

/-! ## Token service (`src/service/auth.rs`, `TokensGenerator`) -/

/-- Embedding of `ShuffleAccessClaim`. -/
structure ShuffleAccessClaim where
  token : Nat
  amount : Nat
  utxoId : Nat
  exp : Nat
deriving DecidableEq, Repr

/-- Embedding of `RoomAccessClaim`. -/
structure RoomAccessClaim where
  utxoId : Nat
  roomId : Nat
  exp : Nat
deriving DecidableEq, Repr

/-- Embedding of `TokensGenerator`: it owns only the HMAC secret. -/
structure TokensGenerator where
  secretKey : String
deriving DecidableEq, Repr

/-- Embedding of `TokensGenerator::new`. -/
def TokensGenerator.new (secretKey : String) : TokensGenerator :=
  ⟨secretKey⟩

/-- Embedding of `TokensGenerator::generate_shuffle_token`.  `jwtEncode` is
the external `jsonwebtoken::encode` for `ShuffleAccessClaim`, a function of
the claim and the secret; `now` is the server clock in seconds.  Expiry is
24 hours. -/
def TokensGenerator.generateShuffleToken
    (jwtEncode : ShuffleAccessClaim → String → String)
    (tg : TokensGenerator) (now token amount utxoId : Nat) : String :=
  jwtEncode ⟨token, amount, utxoId, now + 60 * 60 * 24⟩ tg.secretKey

/-- Embedding of `TokensGenerator::generate_room_token`. -/
def TokensGenerator.generateRoomToken
    (jwtEncode : RoomAccessClaim → String → String)
    (tg : TokensGenerator) (now roomId utxoId : Nat) : String :=
  jwtEncode ⟨utxoId, roomId, now + 60 * 60 * 24⟩ tg.secretKey

/-- Strip the `Bearer ` scheme from an authorization header value
(`strip` of the `Bearer ` prefix in `decode_shuffle_token`). -/
def stripBearer (header : String) : Option String :=
  if header.startsWith "Bearer " then some (header.drop 7) else none

/-- Embedding of `TokensGenerator::decode_shuffle_token`.  `jwtDecode` is the
external `jsonwebtoken::decode`, a function of the token text and the
secret. -/
def TokensGenerator.decodeShuffleToken
    (jwtDecode : String → String → Option ShuffleAccessClaim)
    (tg : TokensGenerator) (authHeader : Option String) :
    Option ShuffleAccessClaim :=
  (authHeader.bind stripBearer).bind fun t => jwtDecode t tg.secretKey

/-- Embedding of `TokensGenerator::decode_room_token`. -/
def TokensGenerator.decodeRoomToken
    (jwtDecode : String → String → Option RoomAccessClaim)
    (tg : TokensGenerator) (authHeader : Option String) :
    Option RoomAccessClaim :=
  (authHeader.bind stripBearer).bind fun t => jwtDecode t tg.secretKey

/-! ## Service bootstrap (`src/config/tokens.rs`, `src/cli/actions.rs`) -/

/-- Embedding of the `tokens` section of the configuration file
(`src/config/tokens.rs`). -/
structure TokensConfig where
  signKey : String
deriving DecidableEq, Repr

/-- Embedding of the parts of `Config` (`src/config/mod.rs`) that
`run_service` reads, plus the tokens section. -/
structure Config where
  databaseUrl : String
  contractUrl : String
  contractAddress : Nat
  signerPrivateKey : String
  tokens : TokensConfig
deriving DecidableEq, Repr

/-- Embedding of the token-relevant state of `Service`
(`src/service/mod.rs`): `Service::new(contract, storage, token_key)` stores
`TokensGenerator::new(token_key)`. -/
structure ServiceTokens where
  tokensGenerator : TokensGenerator
deriving DecidableEq, Repr

/-- Embedding of `Service::new` restricted to the token subsystem. -/
def ServiceTokens.new (tokenKey : String) : ServiceTokens :=
  ⟨TokensGenerator.new tokenKey⟩

/-- Embedding of the service construction in `run_service`
(`src/cli/actions.rs` line 22): the token key passed to `Service::new` is
the string literal `"some_key"`; no field of the configuration is used for
it. -/
def runServiceService (cfg : Config) : ServiceTokens :=
  ServiceTokens.new "some_key"

/-! ## Persistent queue storage (`src/database/queues.rs`) -/

/-- Embedding of `u256_to_big_decimal` (`src/database/utils.rs`): the
decimal string of a `U256` always parses as a `BigDecimal`, so the
conversion is total. -/
def u256ToBigDecimal (v : Nat) : Except String Nat :=
  .ok v

/-- Outcome of `Database::pop_from_queue`: a value, a returned error, or a
Rust panic (out-of-range `Vec::drain`). -/
inductive PopOutcome where
  | ok (popped : List Nat) (table : QueueKey → Option (List Nat))
  | err (msg : String)
  | panicked

/-- Embedding of `Database::pop_from_queue` (`src/database/queues.rs` lines
39–71) over the `queues` table, modelled as a partial map from
`(token, amount)` to the stored participant vector.  A missing row is an
internal "not found" error; `participants.drain(..number)` removes and
returns the first `number` elements and panics when `number` exceeds the
vector length; the remaining vector is written back. -/
def popFromQueue (table : QueueKey → Option (List Nat)) (token amount : Nat)
    (number : Nat) : PopOutcome :=
  match table (token, amount) with
  | none => .err "not found"
  | some participants =>
    match u256ToBigDecimal amount with
    | .error e => .err e
    | .ok _ =>
      if number ≤ participants.length then
        .ok (participants.take number)
          (fun k => if k = (token, amount) then some (participants.drop number)
                    else table k)
      else
        .panicked

/-! ## Room session actor (`src/service/room.rs`) -/

/-- Embedding of `rsa::RsaPublicKey`: an opaque pair of modulus and public
exponent, modelled as naturals. -/
structure RsaKey where
  n : Nat
  e : Nat
deriving DecidableEq, Repr

/-- Big-endian base-256 digits of a natural, empty for zero. -/
def natBeDigits (v : Nat) : List Nat :=
  if h : v = 0 then []
  else natBeDigits (v / 256) ++ [v % 256]
decreasing_by exact Nat.div_lt_self (Nat.pos_of_ne_zero h) (by norm_num)

/-- Embedding of `BigUint::to_bytes_be`: big-endian bytes without leading
zeros, except that zero encodes as the single byte `0`. -/
def bigUintBeBytes (v : Nat) : List Nat :=
  if v = 0 then [0] else natBeDigits v

/-- Embedding of the protobuf `RsaPublicKey` message. -/
structure ProtosRsaPublicKey where
  modulus : List Nat
  exponent : List Nat
deriving DecidableEq, Repr

/-- Conversion performed in `distribute_public_keys`:
`ProtosRsaPublicKey { modulus: n.to_bytes_be(), exponent: e.to_bytes_be() }`. -/
def RsaKey.toProto (k : RsaKey) : ProtosRsaPublicKey :=
  ⟨bigUintBeBytes k.n, bigUintBeBytes k.e⟩

/-- Embedding of the protobuf `ShuffleEvent.body` oneof.  The `errorMsg`
variant exists on the wire (`Error { error: string }`); `room.rs` never
constructs it. -/
inductive Body where
  | shuffleInfo (publicKeysList : List ProtosRsaPublicKey)
      (shuffleAccessToken : String)
  | encodedOutputs (outputs : List (List Nat))
  | txSigningOutputs (outputs : List (List Nat))
  | shuffleTxHash (txHash : List Nat)
  | errorMsg (message : String)
deriving DecidableEq, Repr

/-- Whether a wire event is the terminal `Error` event. -/
def Body.isErrorBody : Body → Bool
  | .errorMsg _ => true
  | _ => false

/-- Embedding of the inbound `RoomEvents` enum.  The stream sender carried by
`AddParticipant` is identified by the participant's utxo id. -/
inductive RoomEvents where
  | addParticipant (utxoId : Nat) (publicKey : RsaKey)
  | shuffleRound (utxoId : Nat) (decodedOutputs : List (List Nat))
  | signedOutput (utxoId : Nat) (signature : Nat)
deriving DecidableEq, Repr

/-- Modelled from the spec: the room record held by the external
`coin_shuffle_core` storage (not part of this repository's sources) — the
fixed ordered participant list, the RSA key map, the round counter, the
current output accumulator and the collected signatures (§3 of the spec). -/
structure Room where
  participants : List Nat
  keyMap : Nat → Option RsaKey
  currentRound : Nat
  outputs : List (List Nat)
  signatures : Nat → Option Nat

/-- Modelled from the spec: `Core::add_participant_key` attaches the RSA
public key to the participant's record and persists it; it fails when no
such participant record exists. -/
def Room.addParticipantKey (r : Room) (utxoId : Nat) (k : RsaKey) :
    Option Room :=
  if utxoId ∈ r.participants then
    some { r with keyMap := fun u => if u = utxoId then some k else r.keyMap u }
  else none

/-- Modelled from the spec: `Core::participant_keys(utxo_id)` returns the
keys of the participants that follow `utxo_id` in the room's participant
order — the keys of `participants[i+1 .. N-1]` in participant-list order
for `utxo_id = participants[i]`. -/
def Room.participantKeys (r : Room) (utxoId : Nat) : List RsaKey :=
  (r.participants.drop (r.participants.indexOf utxoId + 1)).filterMap r.keyMap

/-- Modelled from the spec: `Core::pass_decoded_outputs` verifies that the
sender is `participants[current_round]` (otherwise it fails with an ordering
violation), records the decoded outputs as the current set, increments
`current_round` and returns the incremented round. -/
def Room.passDecodedOutputs (r : Room) (utxoId : Nat)
    (outs : List (List Nat)) : Option (Room × Nat) :=
  if r.participants.get? r.currentRound = some utxoId then
    some ({ r with outputs := outs, currentRound := r.currentRound + 1 },
          r.currentRound + 1)
  else none

/-- Modelled from the spec: `Core::pass_outputs_signature` records
`signatures[utxo_id] = signature` and rejects duplicates. -/
def Room.passOutputsSignature (r : Room) (utxoId sig : Nat) : Option Room :=
  match r.signatures utxoId with
  | some _ => none
  | none =>
    some { r with
            signatures := fun u => if u = utxoId then some sig
                                   else r.signatures u }

/-- Modelled from the spec: `Core::is_signature_passed` holds iff a
signature has been collected for every utxo id in `room.participants`. -/
def Room.isSignaturePassed (r : Room) : Bool :=
  r.participants.all fun p => (r.signatures p).isSome

/-- Embedding of the actor state `RoomConnection`.  `streams` is the
insertion-ordered list of distinct keys of the `participant_streams` hash
map; `chain` is the outcome the external chain connector's `transfer` would
produce (`some txHash` or a failure); `mintToken` abstracts
`TokensGenerator::generate_room_token` for this room.  `trace` (events sent,
with their recipient), `accepted` (senders of accepted `ShuffleRound`
events) and `chainCalls` (arguments of `transfer` invocations) are ghost
observers appended by the transitions. -/
structure RoomConn where
  roomSize : Nat
  streams : List Nat
  room : Room
  chain : Option Nat
  mintToken : Nat → String
  trace : List (Nat × Body)
  accepted : List Nat
  chainCalls : List (List Nat × List (List Nat))

/-- Embedding of `RoomConnection::new`: `room_size` starts at
`usize::default()`, i.e. `0`, and no other code assigns it; the stream map
starts empty. -/
def RoomConn.new (room : Room) (chain : Option Nat)
    (mintToken : Nat → String) : RoomConn :=
  { roomSize := 0, streams := [], room := room, chain := chain,
    mintToken := mintToken, trace := [], accepted := [], chainCalls := [] }

/-- Outcome of one handler: success, a returned error, or a Rust panic. -/
inductive Step where
  | ok (s : RoomConn)
  | err (s : RoomConn)
  | panicked (s : RoomConn)

/-- State carried by a handler outcome. -/
def Step.state : Step → RoomConn
  | .ok s => s
  | .err s => s
  | .panicked s => s

/-- Embedding of `HashMap::insert` on `participant_streams`, restricted to
its key set: inserting an existing utxo id replaces its sender and leaves
the key set unchanged. -/
def RoomConn.insertStream (s : RoomConn) (u : Nat) : RoomConn :=
  if u ∈ s.streams then s else { s with streams := s.streams ++ [u] }

/-- Embedding of `self.participant_streams[u].send(event)`: indexing the
hash map panics when the key is absent; the send itself succeeds (the model
assumes live client receivers) and is recorded in the trace. -/
def RoomConn.sendTo (s : RoomConn) (u : Nat) (b : Body) : Step :=
  if u ∈ s.streams then .ok { s with trace := s.trace ++ [(u, b)] }
  else .panicked s

/-- The `ShuffleInfo` payload built for one participant in
`distribute_public_keys`: the participant's key list converted to wire form
and then reversed (`public_keys_list_raw.reverse()`), together with a
freshly minted RoomAccess token. -/
def RoomConn.shuffleInfoBody (s : RoomConn) (u : Nat) : Body :=
  .shuffleInfo (((s.room.participantKeys u).map RsaKey.toProto).reverse)
    (s.mintToken u)

/-- Loop body of `distribute_public_keys`: for each participant, send its
`ShuffleInfo` event on the participant's stream. -/
def distributeAux (s : RoomConn) : List Nat → Step
  | [] => .ok s
  | u :: rest =>
    match s.sendTo u (s.shuffleInfoBody u) with
    | .ok s' => distributeAux s' rest
    | .err s' => .err s'
    | .panicked s' => .panicked s'

/-- Outcome of `distribute_public_keys`, which returns `participants[0]` on
success. -/
inductive DistResult where
  | ok (s : RoomConn) (first : Nat)
  | err (s : RoomConn)
  | panicked (s : RoomConn)

/-- Embedding of `distribute_public_keys` (`src/service/room.rs` lines
244–287): send `ShuffleInfo` to every participant in room order, then
return `room.participants[0]` — an indexing that panics when the
participant list is empty. -/
def RoomConn.distributePublicKeys (s : RoomConn) : DistResult :=
  match distributeAux s s.room.participants with
  | .ok s' =>
    match s'.room.participants.head? with
    | some first => .ok s' first
    | none => .panicked s'
  | .err s' => .err s'
  | .panicked s' => .panicked s'

/-- Embedding of `event_add_participant` (`src/service/room.rs` lines
122–161): insert the stream, attach the key via the core, and only when the
stream-map size equals the *current* `room_size` counter distribute the
public keys and hand round 0 to `participants[0]`; finally increment
`room_size`. -/
def RoomConn.eventAddParticipant (s : RoomConn) (utxoId : Nat)
    (pk : RsaKey) : Step :=
  let s1 := s.insertStream utxoId
  match s1.room.addParticipantKey utxoId pk with
  | none => .err s1
  | some room' =>
    let s2 := { s1 with room := room' }
    if s2.streams.length = s2.roomSize then
      match s2.distributePublicKeys with
      | .ok s3 first =>
        match s3.sendTo first (.encodedOutputs []) with
        | .ok s4 => .ok { s4 with roomSize := s4.roomSize + 1 }
        | .err s4 => .err s4
        | .panicked s4 => .panicked s4
      | .err s3 => .err s3
      | .panicked s3 => .panicked s3
    else
      .ok { s2 with roomSize := s2.roomSize + 1 }

/-- Loop body of `distribute_outputs`: send the decoded output set to every
participant. -/
def sendOutputsAux (s : RoomConn) (outsRaw : List (List Nat)) :
    List Nat → Step
  | [] => .ok s
  | u :: rest =>
    match s.sendTo u (.txSigningOutputs outsRaw) with
    | .ok s' => sendOutputsAux s' outsRaw rest
    | .err s' => .err s'
    | .panicked s' => .panicked s'

/-- Embedding of `distribute_outputs` (`src/service/room.rs` lines
302–331): broadcast `TxSigningOutputs` with the room's decoded outputs to
every participant in room order. -/
def RoomConn.distributeOutputs (s : RoomConn) : Step :=
  sendOutputsAux s s.room.outputs s.room.participants

/-- Embedding of `event_shuffle_round` (`src/service/room.rs` lines
163–202): pass the decoded outputs to the core (which enforces the turn
order), then either broadcast the signing outputs (when the returned round
equals the stream count) or forward the outputs to
`room.participants[current_round]` — an indexing that panics when the round
is out of range. -/
def RoomConn.eventShuffleRound (s : RoomConn) (utxoId : Nat)
    (outs : List (List Nat)) : Step :=
  match s.room.passDecodedOutputs utxoId outs with
  | none => .err s
  | some (room', currentRound) =>
    let s1 := { s with room := room', accepted := s.accepted ++ [utxoId] }
    if currentRound = s1.streams.length then
      s1.distributeOutputs
    else
      match room'.participants.get? currentRound with
      | some next => s1.sendTo next (.encodedOutputs outs)
      | none => .panicked s1

/-- Broadcast of the transaction hash in `event_signed_output`: iterate over
every entry of `participant_streams` and send `ShuffleTxHash`; each send
succeeds in the live-receiver model. -/
def RoomConn.broadcastTxHash (s : RoomConn) (txHash : List Nat) : Step :=
  .ok { s with
         trace := s.trace ++ s.streams.map fun u => (u, Body.shuffleTxHash txHash) }

/-- Embedding of `event_signed_output` (`src/service/room.rs` lines
204–242): record the signature, and when every participant has signed,
invoke the chain connector's `transfer` (recorded in `chainCalls` with the
room's inputs and outputs).  The `Result` of `send_transaction` is consumed
by `.unwrap()`: a chain failure panics the actor task.  On success the
handler broadcasts the hash and returns `Ok`. -/
def RoomConn.eventSignedOutput (s : RoomConn) (utxoId sig : Nat) : Step :=
  match s.room.passOutputsSignature utxoId sig with
  | none => .err s
  | some room' =>
    let s1 := { s with room := room' }
    if room'.isSignaturePassed then
      let s2 := { s1 with
                   chainCalls := s1.chainCalls ++
                     [(room'.participants, room'.outputs)] }
      match s2.chain with
      | none => .panicked s2
      | some h => s2.broadcastTxHash (u256BeBytes h)
    else
      .ok s1

/-- Embedding of `handle_event` (`src/service/room.rs` lines 105–120). -/
def RoomConn.handleEvent (s : RoomConn) : RoomEvents → Step
  | .addParticipant u pk => s.eventAddParticipant u pk
  | .shuffleRound u outs => s.eventShuffleRound u outs
  | .signedOutput u sig => s.eventSignedOutput u sig

/-- Exit of the actor loop: the deadline tick (after the finite event list
is exhausted), a handler error (the loop logs and returns), or a panic of
the task. -/
inductive RunResult where
  | deadline (s : RoomConn)
  | failed (s : RoomConn)
  | panicked (s : RoomConn)

/-- State at actor exit. -/
def RunResult.state : RunResult → RoomConn
  | .deadline s => s
  | .failed s => s
  | .panicked s => s

/-- Whether the actor exited through the deadline arm of the `select`. -/
def RunResult.isDeadline : RunResult → Bool
  | .deadline _ => true
  | _ => false

/-- Whether the actor exited because a handler returned an error. -/
def RunResult.isFailed : RunResult → Bool
  | .failed _ => true
  | _ => false

/-- Whether the actor task died in a panic. -/
def RunResult.isPanicked : RunResult → Bool
  | .panicked _ => true
  | _ => false

/-- Embedding of `run` (`src/service/room.rs` lines 80–103): process the
inbound events in FIFO order; a handler error makes the loop log and
`return`; once the channel is quiet the deadline interval tick fires and the
loop returns. -/
def RoomConn.run (s : RoomConn) : List RoomEvents → RunResult
  | [] => .deadline s
  | e :: rest =>
    match s.handleEvent e with
    | .ok s' => s'.run rest
    | .err s' => .failed s'
    | .panicked s' => .panicked s'

/-! ## Concrete fixtures used by the closed theorems below -/

/-- A freshly created room of size two with participants `1` and `2`. -/
def roomTwo : Room :=
  { participants := [1, 2], keyMap := fun _ => none, currentRound := 0,
    outputs := [], signatures := fun _ => none }

/-- The actor for `roomTwo` right after `RoomConnection::new`. -/
def connTwo : RoomConn := RoomConn.new roomTwo (some 5) fun _ => ""

/-- The actor for `roomTwo` with both participant streams connected and the
round counter at `0`. -/
def connLive : RoomConn :=
  { roomSize := 2, streams := [1, 2], room := roomTwo, chain := some 5,
    mintToken := fun _ => "", trace := [], accepted := [], chainCalls := [] }

/-- A room of size two that has finished its decoding rounds and holds one
of the two signatures. -/
def roomSigned : Room :=
  { participants := [1, 2], keyMap := fun _ => none, currentRound := 2,
    outputs := [[8], [9]],
    signatures := fun u => if u = 1 then some 11 else none }

/-- The actor for `roomSigned` whose chain connector fails on `transfer`. -/
def connSigned : RoomConn :=
  { roomSize := 2, streams := [1, 2], room := roomSigned, chain := none,
    mintToken := fun _ => "", trace := [], accepted := [1, 2],
    chainCalls := [] }

/-- A room of size two whose key map holds a key for every participant. -/
def roomKeys : Room :=
  { participants := [1, 2], keyMap := fun p => some ⟨p, 3⟩,
    currentRound := 0, outputs := [], signatures := fun _ => none }

/-- The actor for `roomKeys` with both streams connected. -/
def connKeys : RoomConn :=
  { roomSize := 2, streams := [1, 2], room := roomKeys, chain := some 5,
    mintToken := fun _ => "t", trace := [], accepted := [], chainCalls := [] }

/-- State carried by a `distribute_public_keys` outcome. -/
def DistResult.state : DistResult → RoomConn
  | .ok s _ => s
  | .err s => s
  | .panicked s => s

/-- A queues table holding one row, for key `(0, 0)`, with two
participants. -/
def queueTableTwo : QueueKey → Option (List Nat) :=
  fun k => if k = (0, 0) then some [1, 2] else none

/-- The actor for `roomSigned` whose chain connector succeeds with
transaction hash `5`. -/
def connSignedOk : RoomConn :=
  { roomSize := 2, streams := [1, 2], room := roomSigned, chain := some 5,
    mintToken := fun _ => "", trace := [], accepted := [1, 2],
    chainCalls := [] }

/-! ## Waiter theorems (claim C2) -/

theorem addParticipant_spec (w : Waiter) (t a p : Nat)
    (hlt : (w.queue.queues (t, a)).length < w.minParticipants) :
    (w.addParticipant t a p).2.minParticipants = w.minParticipants ∧
    (if (w.queue.queues (t, a)).length + 1 = w.minParticipants then
       (w.addParticipant t a p).1 = some (w.queue.queues (t, a) ++ [p]) ∧
       (w.addParticipant t a p).2.queue.queues (t, a) = []
     else
       (w.addParticipant t a p).1 = none ∧
       (w.addParticipant t a p).2.queue.queues (t, a) =
         w.queue.queues (t, a) ++ [p]) ∧
    ∀ k, k ≠ (t, a) → (w.addParticipant t a p).2.queue.queues k =
      w.queue.queues k := by
  by_cases hfil : (w.queue.queues (t, a)).length + 1 = w.minParticipants
  · rw [if_pos hfil]
    have hle : w.minParticipants ≤ (w.queue.queues (t, a)).length + 1 := hfil.ge
    refine ⟨?_, ⟨?_, ?_⟩, fun k hk => ?_⟩
    · simp [Waiter.addParticipant, Waiter.isFilled, QueuesStorage.len,
        QueuesStorage.pop, QueuesStorage.push, hle]
    · simp [Waiter.addParticipant, Waiter.isFilled, QueuesStorage.len,
        QueuesStorage.pop, QueuesStorage.push, hle]
    · simp [Waiter.addParticipant, Waiter.isFilled, QueuesStorage.len,
        QueuesStorage.pop, QueuesStorage.push, hle]
    · simp [Waiter.addParticipant, Waiter.isFilled, QueuesStorage.len,
        QueuesStorage.pop, QueuesStorage.push, hle, hk]
  · have hle : ¬ w.minParticipants ≤ (w.queue.queues (t, a)).length + 1 := by
      omega
    rw [if_neg hfil]
    refine ⟨?_, ⟨?_, ?_⟩, fun k hk => ?_⟩
    · simp [Waiter.addParticipant, Waiter.isFilled, QueuesStorage.len,
        QueuesStorage.pop, QueuesStorage.push, hle]
    · simp [Waiter.addParticipant, Waiter.isFilled, QueuesStorage.len,
        QueuesStorage.pop, QueuesStorage.push, hle]
    · simp [Waiter.addParticipant, Waiter.isFilled, QueuesStorage.len,
        QueuesStorage.pop, QueuesStorage.push, hle]
    · simp [Waiter.addParticipant, Waiter.isFilled, QueuesStorage.len,
        QueuesStorage.pop, QueuesStorage.push, hle, hk]

theorem runAdds_inv (min : Nat) (hmin : 0 < min) (calls : List (QueueKey × Nat)) :
    ∀ w : Waiter, w.minParticipants = min →
      (∀ k, (w.queue.queues k).length < min) →
      (w.runAdds calls).minParticipants = min ∧
      ∀ k, ((w.runAdds calls).queue.queues k).length < min := by
  induction calls with
  | nil => exact fun w hw hinv => ⟨hw, hinv⟩
  | cons c rest ih =>
    intro w hw hinv
    have hspec := addParticipant_spec w c.1.1 c.1.2 c.2
      (by rw [hw]; exact hinv (c.1.1, c.1.2))
    have hmin2 : (w.addParticipant c.1.1 c.1.2 c.2).2.minParticipants = min :=
      hspec.1.trans hw
    have hinv2 : ∀ k,
        (((w.addParticipant c.1.1 c.1.2 c.2).2).queue.queues k).length < min := by
      intro k
      by_cases hk : k = (c.1.1, c.1.2)
      · subst hk
        have h2 := hspec.2.1
        by_cases hfull :
            (w.queue.queues (c.1.1, c.1.2)).length + 1 = w.minParticipants
        · rw [if_pos hfull] at h2
          rw [h2.2]
          simpa using hmin
        · rw [if_neg hfull] at h2
          rw [h2.2]
          have := hinv (c.1.1, c.1.2)
          have hwlt : (w.queue.queues (c.1.1, c.1.2)).length < w.minParticipants := by
            rw [hw]; exact hinv (c.1.1, c.1.2)
          simp only [List.length_append, List.length_singleton]
          omega
      · rw [hspec.2.2 k hk]
        exact hinv k
    have hrw : w.runAdds (c :: rest) =
        ((w.addParticipant c.1.1 c.1.2 c.2).2).runAdds rest := by
      rcases c with ⟨⟨t, a⟩, p⟩
      rfl
    rw [hrw]
    exact ih _ hmin2 hinv2

/-- Claim C2: for every sequence of `add_participant` calls from the fresh
waiter, the call at key `(token, amount)` returns `some batch` with `batch`
exactly the queued ids followed by the new id — the first `min` enqueued
ids in FIFO order — and empties the queue, exactly when the queue length
reaches `min`; otherwise it returns `none` and only appends the id.  Queues
under other keys are untouched, and no reachable queue ever holds `min` or
more entries, so a drain is always the full batch. -/
theorem waiter_add_participant_batch (min : Nat) (hmin : 0 < min)
    (calls : List (QueueKey × Nat)) (token amount participant : Nat) :
    ((((Waiter.new min).runAdds calls).queue.queues (token, amount)).length
      < min) ∧
    (if (((Waiter.new min).runAdds calls).queue.queues
          (token, amount)).length + 1 = min then
       (((Waiter.new min).runAdds calls).addParticipant token amount
           participant).1 =
         some (((Waiter.new min).runAdds calls).queue.queues (token, amount)
           ++ [participant]) ∧
       (((Waiter.new min).runAdds calls).addParticipant token amount
           participant).2.queue.queues (token, amount) = []
     else
       (((Waiter.new min).runAdds calls).addParticipant token amount
           participant).1 = none ∧
       (((Waiter.new min).runAdds calls).addParticipant token amount
           participant).2.queue.queues (token, amount) =
         ((Waiter.new min).runAdds calls).queue.queues (token, amount)
           ++ [participant]) ∧
    ∀ k, k ≠ (token, amount) →
      (((Waiter.new min).runAdds calls).addParticipant token amount
          participant).2.queue.queues k =
        ((Waiter.new min).runAdds calls).queue.queues k := by
  have hinv := runAdds_inv min hmin calls (Waiter.new min) rfl
    (by intro k; simpa [Waiter.new, QueuesStorage.new] using hmin)
  have hspec := addParticipant_spec ((Waiter.new min).runAdds calls)
    token amount participant (by rw [hinv.1]; exact hinv.2 (token, amount))
  rw [hinv.1] at hspec
  exact ⟨hinv.2 (token, amount), hspec.2.1, hspec.2.2⟩

/-- Witness for `waiter_add_participant_batch`: with `min = 2`, after
enqueuing id `5`, adding id `6` returns the full FIFO batch `[5, 6]` and
empties the queue. -/
theorem waiter_add_participant_batch_witness :
    0 < 2 ∧
    (((Waiter.new 2).runAdds [((0, 0), 5)]).addParticipant 0 0 6).1 =
      some [5, 6] ∧
    (((Waiter.new 2).runAdds [((0, 0), 5)]).addParticipant 0 0
        6).2.queue.queues (0, 0) = [] := by
  have h := waiter_add_participant_batch 2 (by decide) [((0, 0), 5)] 0 0 6
  have h2 := h.2.1
  rw [if_pos (by decide)] at h2
  exact ⟨by decide, h2.1.trans (by decide), h2.2⟩

/-! ## Room registry theorems (claim C7) -/

/-- Claim C7 counterexample: with an empty registry and a storage holding no
room at all, `get_room_stream` still returns a sender, spawns a room actor
and inserts a registry entry for the unknown room id `7` — it does not
return `None`. -/
theorem get_room_stream_spawns_without_storage :
    (getRoomStream ⟨[]⟩ (fun _ => none) 7).sender = some 7 ∧
    (getRoomStream ⟨[]⟩ (fun _ => none) 7).spawned = true ∧
    (getRoomStream ⟨[]⟩ (fun _ => none) 7).registry.entries = [7] := by
  decide

/-- Claim C7 (amended): `get_room_stream` never returns `None`; on a vacant
registry entry it spawns a room actor and appends a registry entry for the
requested room id, and on an occupied entry it returns the existing sender —
in both cases without consulting the backing storage, whose content has no
influence on the result. -/
theorem get_room_stream_total (reg : RoomRegistry)
    (storage storage' : Nat → Option Nat) (roomId : Nat) :
    (getRoomStream reg storage roomId).sender = some roomId ∧
    ((getRoomStream reg storage roomId).spawned = true ↔
      roomId ∉ reg.entries) ∧
    (getRoomStream reg storage roomId).registry.entries =
      (if roomId ∈ reg.entries then reg.entries else reg.entries ++ [roomId]) ∧
    getRoomStream reg storage roomId = getRoomStream reg storage' roomId := by
  by_cases h : roomId ∈ reg.entries <;>
    simp [getRoomStream, h]

/-! ## Token service theorems (claim C9) -/

/-- Claim C9: the HMAC secret of the service's token generator is the
hard-coded string `"some_key"`, so any two configurations — in particular
two that differ only in `tokens.sign_key` — yield identical generators,
identical minted ShuffleAccess and RoomAccess tokens, and identical token
decoding outcomes. -/
theorem token_secret_ignores_config (cfg cfg' : Config) :
    runServiceService cfg = runServiceService cfg' ∧
    (runServiceService cfg).tokensGenerator.secretKey = "some_key" ∧
    (∀ (jwtEncode : RoomAccessClaim → String → String) (now roomId utxoId : Nat),
      (runServiceService cfg).tokensGenerator.generateRoomToken jwtEncode
          now roomId utxoId =
        (runServiceService cfg').tokensGenerator.generateRoomToken jwtEncode
          now roomId utxoId) ∧
    (∀ (jwtEncode : ShuffleAccessClaim → String → String)
        (now token amount utxoId : Nat),
      (runServiceService cfg).tokensGenerator.generateShuffleToken jwtEncode
          now token amount utxoId =
        (runServiceService cfg').tokensGenerator.generateShuffleToken jwtEncode
          now token amount utxoId) ∧
    (∀ (jwtDecode : String → String → Option ShuffleAccessClaim)
        (header : Option String),
      (runServiceService cfg).tokensGenerator.decodeShuffleToken jwtDecode
          header =
        (runServiceService cfg').tokensGenerator.decodeShuffleToken jwtDecode
          header) ∧
    (∀ (jwtDecode : String → String → Option RoomAccessClaim)
        (header : Option String),
      (runServiceService cfg).tokensGenerator.decodeRoomToken jwtDecode
          header =
        (runServiceService cfg').tokensGenerator.decodeRoomToken jwtDecode
          header) :=
  ⟨rfl, rfl, fun _ _ _ _ => rfl, fun _ _ _ _ _ => rfl, fun _ _ => rfl,
   fun _ _ => rfl⟩

/-! ## Database queue theorems (claim C10) -/

/-- Claim C10: when a queue row exists for `(token, amount)` with stored
vector `ps`, `pop_from_queue` panics (out-of-range `Vec::drain`) exactly
when `number` exceeds `ps.length`; under the precondition
`number ≤ ps.length` it returns the first `number` ids and writes back the
remainder. -/
theorem pop_from_queue_drain (table : QueueKey → Option (List Nat))
    (token amount number : Nat) (ps : List Nat)
    (h : table (token, amount) = some ps) :
    (ps.length < number →
      popFromQueue table token amount number = .panicked) ∧
    (number ≤ ps.length →
      popFromQueue table token amount number =
        .ok (ps.take number)
          (fun k => if k = (token, amount) then some (ps.drop number)
                    else table k)) := by
  constructor
  · intro hlt
    simp only [popFromQueue, h, u256ToBigDecimal]
    rw [if_neg (by omega)]
  · intro hle
    simp only [popFromQueue, h, u256ToBigDecimal]
    rw [if_pos hle]

/-- Witness for `pop_from_queue_drain`: a stored row `[1, 2]` drained with
`number = 3` panics. -/
theorem pop_from_queue_drain_witness :
    [1, 2].length < 3 ∧ popFromQueue queueTableTwo 0 0 3 = .panicked := by
  have h := pop_from_queue_drain queueTableTwo 0 0 3 [1, 2] rfl
  exact ⟨by decide, h.1 (by decide)⟩

/-! ## Join-signature theorems (claim C8) -/

/-- Claim C8 counterexample: for a future timestamp (`timestamp = 1`,
server clock `now = 0`) whose signature bytes fail to decode, the verifier
returns `InvalidSignature`, not `InvalidTimestamp` — decoding is checked
before the timestamp. -/
theorem verify_join_future_timestamp_decode_first :
    verifyJoinSignature Unit (fun _ => none) (fun _ _ _ => true) 0 0 1 [] 0 =
      .invalidSignature ∧
    JoinVerifyResult.invalidSignature ≠ .invalidTimestamp 1 := by
  decide

/-- Claim C8 (amended): `verify_join_signature` checks the signature over
the 40-byte message `utxo_id_be(32) ‖ timestamp_be(8)` and returns `Ok` iff
the signature decodes, recovery matches the owner, and the timestamp is not
in the future; when decoding fails it returns `InvalidSignature` regardless
of the timestamp; when the signature decodes and the timestamp is in the
future it returns `InvalidTimestamp`; a past (or current) timestamp is
never rejected as `InvalidTimestamp`. -/
theorem verify_join_signature_order (Sig : Type)
    (decode : List Nat → Option Sig)
    (verify : Sig → List Nat → Nat → Bool)
    (now utxoId timestamp : Nat) (signature : List Nat) (owner : Nat) :
    (verifyJoinSignature Sig decode verify now utxoId timestamp signature
        owner = .ok ↔
      (∃ s, decode signature = some s ∧
        verify s (joinMessage utxoId timestamp) owner = true) ∧
      timestamp ≤ now) ∧
    (decode signature = none →
      verifyJoinSignature Sig decode verify now utxoId timestamp signature
        owner = .invalidSignature) ∧
    (∀ s, decode signature = some s → now < timestamp →
      verifyJoinSignature Sig decode verify now utxoId timestamp signature
        owner = .invalidTimestamp timestamp) ∧
    (∀ s, decode signature = some s → timestamp ≤ now →
      verify s (joinMessage utxoId timestamp) owner = false →
      verifyJoinSignature Sig decode verify now utxoId timestamp signature
        owner = .invalidSignature) ∧
    (timestamp ≤ now → ∀ t,
      verifyJoinSignature Sig decode verify now utxoId timestamp signature
        owner ≠ .invalidTimestamp t) ∧
    (joinMessage utxoId timestamp).length = 40 := by
  refine ⟨⟨?_, ?_⟩, ?_, ?_, ?_, ?_, ?_⟩
  · intro h
    cases hd : decode signature with
    | none =>
      simp only [verifyJoinSignature, hd] at h
      exact absurd h (by simp)
    | some s =>
      simp only [verifyJoinSignature, hd] at h
      by_cases h1 : now < timestamp
      · rw [if_pos h1] at h
        exact absurd h (by simp)
      · rw [if_neg h1] at h
        by_cases h2 : verify s (joinMessage utxoId timestamp) owner = true
        · exact ⟨⟨s, rfl, h2⟩, by omega⟩
        · rw [if_neg h2] at h
          exact absurd h (by simp)
  · rintro ⟨⟨s, hd, hv⟩, hts⟩
    simp only [verifyJoinSignature, hd]
    rw [if_neg (by omega), if_pos hv]
  · intro hd
    simp only [verifyJoinSignature, hd]
  · intro s hd h1
    simp only [verifyJoinSignature, hd]
    rw [if_pos h1]
  · intro s hd h1 hv
    simp only [verifyJoinSignature, hd]
    rw [if_neg (by omega), if_neg (by simp [hv])]
  · intro hts t
    cases hd : decode signature with
    | none => simp [verifyJoinSignature, hd]
    | some s =>
      simp only [verifyJoinSignature, hd]
      rw [if_neg (by omega)]
      split_ifs <;> simp
  · simp [joinMessage, u256BeBytes, u64BeBytes]

/-- Witness for `verify_join_signature_order`: a decodable signature that
verifies, with a past timestamp, is accepted, and the signed message is
40 bytes long. -/
theorem verify_join_signature_order_witness :
    verifyJoinSignature Unit (fun _ => some ()) (fun _ _ _ => true) 5 0 3 []
      0 = .ok ∧
    (joinMessage 0 3).length = 40 := by
  have h := verify_join_signature_order Unit (fun _ => some ())
    (fun _ _ _ => true) 5 0 3 [] 0
  exact ⟨h.1.mpr ⟨⟨(), rfl, rfl⟩, by decide⟩, h.2.2.2.2.2⟩

/-! ## Room actor theorems (claims C1, C3, C4, C5, C6) -/

/-- Claim C1, evaluated at the failing input: a fresh actor for the
two-participant room `roomTwo` that handles two distinct `AddParticipant`
events sends nothing at all — no `ShuffleInfo` and no `EncodedOutputs` —
and idles until the deadline, because `room_size` starts at `0` and is
incremented only after the `len == room_size` comparison. -/
theorem room_two_distinct_adds_silent :
    (connTwo.run [.addParticipant 1 ⟨3, 7⟩,
        .addParticipant 2 ⟨4, 7⟩]).state.trace = [] ∧
    (connTwo.run [.addParticipant 1 ⟨3, 7⟩,
        .addParticipant 2 ⟨4, 7⟩]).isDeadline = true := by
  decide

/-- Claim C5 counterexample: a `ShuffleRound` event from the wrong sender
makes the handler fail and the actor exit, but no `Error` event — indeed no
event at all — is delivered to the two connected streams. -/
theorem room_handler_error_silent :
    (connLive.run [.shuffleRound 2 [[9]]]).isFailed = true ∧
    (connLive.run [.shuffleRound 2 [[9]]]).state.trace = [] := by
  decide

/-- Claim C6 counterexample: when the final signature arrives and the chain
connector's `transfer` fails, the actor panics on `.unwrap()`: `transfer`
was invoked, yet no `Error` (and no other event) reaches any participant
stream. -/
theorem room_chain_failure_panics :
    (connSigned.run [.signedOutput 2 12]).isPanicked = true ∧
    (connSigned.run [.signedOutput 2 12]).state.trace = [] ∧
    (connSigned.run [.signedOutput 2 12]).state.chainCalls =
      [([1, 2], [[8], [9]])] := by
  decide

/-! ## Room actor frame lemmas -/

theorem insertStream_parts (s : RoomConn) (u : Nat) :
    (s.insertStream u).room = s.room ∧
    (s.insertStream u).accepted = s.accepted ∧
    (s.insertStream u).trace = s.trace ∧
    (s.insertStream u).roomSize = s.roomSize ∧
    (s.insertStream u).chainCalls = s.chainCalls := by
  unfold RoomConn.insertStream
  split <;> exact ⟨rfl, rfl, rfl, rfl, rfl⟩

theorem addParticipantKey_parts (r : Room) (u : Nat) (pk : RsaKey)
    (room' : Room) (h : r.addParticipantKey u pk = some room') :
    room'.participants = r.participants ∧
    room'.currentRound = r.currentRound ∧
    room'.outputs = r.outputs ∧
    room'.signatures = r.signatures := by
  unfold Room.addParticipantKey at h
  split at h
  · cases h
    exact ⟨rfl, rfl, rfl, rfl⟩
  · cases h

theorem sendTo_shape (s : RoomConn) (u : Nat) (b : Body)
    (hb : b.isErrorBody = false) :
    ∃ t, (s.sendTo u b).state = { s with trace := t } ∧
      ∀ x ∈ t, x ∈ s.trace ∨ x.2.isErrorBody = false := by
  unfold RoomConn.sendTo
  by_cases h : u ∈ s.streams
  · rw [if_pos h]
    refine ⟨s.trace ++ [(u, b)], rfl, ?_⟩
    intro x hx
    rcases List.mem_append.mp hx with hx | hx
    · exact Or.inl hx
    · rw [List.mem_singleton] at hx
      subst hx
      exact Or.inr hb
  · rw [if_neg h]
    exact ⟨s.trace, rfl, fun x hx => Or.inl hx⟩

theorem distributeAux_shape (us : List Nat) : ∀ s : RoomConn,
    ∃ t, (distributeAux s us).state = { s with trace := t } ∧
      ∀ x ∈ t, x ∈ s.trace ∨ x.2.isErrorBody = false := by
  induction us with
  | nil => exact fun s => ⟨s.trace, rfl, fun x hx => Or.inl hx⟩
  | cons u rest ih =>
    intro s
    show ∃ t, (match s.sendTo u (s.shuffleInfoBody u) with
      | .ok s' => distributeAux s' rest
      | .err s' => .err s'
      | .panicked s' => .panicked s').state = { s with trace := t } ∧ _
    obtain ⟨t0, ht0, hp0⟩ := sendTo_shape s u (s.shuffleInfoBody u) rfl
    cases hsend : s.sendTo u (s.shuffleInfoBody u) with
    | ok s' =>
      rw [hsend] at ht0
      have hs' : s' = { s with trace := t0 } := ht0
      obtain ⟨t, ht, hp⟩ := ih s'
      refine ⟨t, ?_, ?_⟩
      · rw [ht, hs']
      · intro x hx
        rcases hp x hx with hx2 | hx2
        · have hx3 : x ∈ t0 := by rw [hs'] at hx2; exact hx2
          exact hp0 x hx3
        · exact Or.inr hx2
    | err s' =>
      rw [hsend] at ht0
      exact ⟨t0, ht0, hp0⟩
    | panicked s' =>
      rw [hsend] at ht0
      exact ⟨t0, ht0, hp0⟩

theorem sendOutputsAux_shape (outsRaw : List (List Nat)) (us : List Nat) :
    ∀ s : RoomConn,
    ∃ t, (sendOutputsAux s outsRaw us).state = { s with trace := t } ∧
      ∀ x ∈ t, x ∈ s.trace ∨ x.2.isErrorBody = false := by
  induction us with
  | nil => exact fun s => ⟨s.trace, rfl, fun x hx => Or.inl hx⟩
  | cons u rest ih =>
    intro s
    show ∃ t, (match s.sendTo u (.txSigningOutputs outsRaw) with
      | .ok s' => sendOutputsAux s' outsRaw rest
      | .err s' => .err s'
      | .panicked s' => .panicked s').state = { s with trace := t } ∧ _
    obtain ⟨t0, ht0, hp0⟩ := sendTo_shape s u (.txSigningOutputs outsRaw) rfl
    cases hsend : s.sendTo u (.txSigningOutputs outsRaw) with
    | ok s' =>
      rw [hsend] at ht0
      have hs' : s' = { s with trace := t0 } := ht0
      obtain ⟨t, ht, hp⟩ := ih s'
      refine ⟨t, ?_, ?_⟩
      · rw [ht, hs']
      · intro x hx
        rcases hp x hx with hx2 | hx2
        · have hx3 : x ∈ t0 := by rw [hs'] at hx2; exact hx2
          exact hp0 x hx3
        · exact Or.inr hx2
    | err s' =>
      rw [hsend] at ht0
      exact ⟨t0, ht0, hp0⟩
    | panicked s' =>
      rw [hsend] at ht0
      exact ⟨t0, ht0, hp0⟩

theorem distributePublicKeys_shape (s : RoomConn) :
    ∃ t, (s.distributePublicKeys).state = { s with trace := t } ∧
      ∀ x ∈ t, x ∈ s.trace ∨ x.2.isErrorBody = false := by
  unfold RoomConn.distributePublicKeys
  obtain ⟨t0, ht0, hp0⟩ := distributeAux_shape s.room.participants s
  cases hd : distributeAux s s.room.participants with
  | ok s' =>
    rw [hd] at ht0
    have hred : ∀ o : Option Nat,
        (match o with
         | some first => DistResult.ok s' first
         | none => DistResult.panicked s').state = s' := by
      intro o
      cases o <;> rfl
    exact ⟨t0, (hred _).trans ht0, hp0⟩
  | err s' =>
    rw [hd] at ht0
    exact ⟨t0, ht0, hp0⟩
  | panicked s' =>
    rw [hd] at ht0
    exact ⟨t0, ht0, hp0⟩

theorem passDecodedOutputs_none (r : Room) (u : Nat) (outs : List (List Nat))
    (h : r.participants.get? r.currentRound ≠ some u) :
    r.passDecodedOutputs u outs = none := by
  unfold Room.passDecodedOutputs
  rw [if_neg h]

theorem passDecodedOutputs_some (r : Room) (u : Nat) (outs : List (List Nat))
    (room' : Room) (rd : Nat)
    (h : r.passDecodedOutputs u outs = some (room', rd)) :
    r.participants.get? r.currentRound = some u ∧
    room' = { r with outputs := outs, currentRound := r.currentRound + 1 } ∧
    rd = r.currentRound + 1 := by
  unfold Room.passDecodedOutputs at h
  split_ifs at h with hc
  simp only [Option.some.injEq, Prod.mk.injEq] at h
  exact ⟨hc, h.1.symm, h.2.symm⟩

theorem passOutputsSignature_some (r : Room) (u sig : Nat) (room' : Room)
    (h : r.passOutputsSignature u sig = some room') :
    r.signatures u = none ∧
    room' = { r with
               signatures := fun v => if v = u then some sig
                                      else r.signatures v } := by
  unfold Room.passOutputsSignature at h
  split at h
  · cases h
  · next hnone =>
    simp only [Option.some.injEq] at h
    exact ⟨hnone, h.symm⟩



/-- Outcome of `distribute_public_keys`: the state differs from the input
only in the trace, and every appended event is not an `Error` event. -/
theorem distributePublicKeys_facts (s2 : RoomConn) (r : DistResult)
    (hd : s2.distributePublicKeys = r) :
    r.state.room = s2.room ∧ r.state.accepted = s2.accepted ∧
    r.state.roomSize = s2.roomSize ∧ r.state.streams = s2.streams ∧
    r.state.chainCalls = s2.chainCalls ∧
    ∀ x ∈ r.state.trace, x ∈ s2.trace ∨ x.2.isErrorBody = false := by
  subst hd
  obtain ⟨t, ht, hp⟩ := distributePublicKeys_shape s2
  rw [ht]
  exact ⟨rfl, rfl, rfl, rfl, rfl, hp⟩

/-- Outcome of a single stream send: only the trace changes, and the
appended event is the sent body. -/
theorem sendTo_facts (s2 : RoomConn) (u : Nat) (b : Body)
    (r : Step) (hd : s2.sendTo u b = r) (hb : b.isErrorBody = false) :
    r.state.room = s2.room ∧ r.state.accepted = s2.accepted ∧
    r.state.roomSize = s2.roomSize ∧ r.state.streams = s2.streams ∧
    r.state.chainCalls = s2.chainCalls ∧
    ∀ x ∈ r.state.trace, x ∈ s2.trace ∨ x.2.isErrorBody = false := by
  subst hd
  obtain ⟨t, ht, hp⟩ := sendTo_shape s2 u b hb
  rw [ht]
  exact ⟨rfl, rfl, rfl, rfl, rfl, hp⟩

/-- Outcome of `distribute_outputs`: only the trace changes, and no
`Error` event is appended. -/
theorem distributeOutputs_facts (s2 : RoomConn) (r : Step)
    (hd : s2.distributeOutputs = r) :
    r.state.room = s2.room ∧ r.state.accepted = s2.accepted ∧
    r.state.roomSize = s2.roomSize ∧ r.state.streams = s2.streams ∧
    r.state.chainCalls = s2.chainCalls ∧
    ∀ x ∈ r.state.trace, x ∈ s2.trace ∨ x.2.isErrorBody = false := by
  subst hd
  obtain ⟨t, ht, hp⟩ := sendOutputsAux_shape s2.room.outputs s2.room.participants s2
  rw [RoomConn.distributeOutputs, ht]
  exact ⟨rfl, rfl, rfl, rfl, rfl, hp⟩

/-- The `AddParticipant` handler never changes the participant list, the
round counter or the accepted-senders list, and never emits an `Error`
event. -/
theorem eventAddParticipant_facts (s : RoomConn) (u : Nat) (pk : RsaKey) :
    (s.eventAddParticipant u pk).state.room.participants =
      s.room.participants ∧
    (s.eventAddParticipant u pk).state.accepted = s.accepted ∧
    (s.eventAddParticipant u pk).state.room.currentRound =
      s.room.currentRound ∧
    ∀ x ∈ (s.eventAddParticipant u pk).state.trace,
      x ∈ s.trace ∨ x.2.isErrorBody = false := by
  obtain ⟨hroom, hacc, htr, hrs, hcc⟩ := insertStream_parts s u
  simp only [RoomConn.eventAddParticipant]
  generalize hg : s.insertStream u = s1 at *
  split
  · refine ⟨?_, ?_, ?_, ?_⟩
    · show s1.room.participants = s.room.participants
      rw [hroom]
    · exact hacc
    · show s1.room.currentRound = s.room.currentRound
      rw [hroom]
    · intro x hx
      have hx2 : x ∈ s1.trace := hx
      rw [htr] at hx2
      exact Or.inl hx2
  · next room' hk =>
    obtain ⟨hp1, hp2, _, _⟩ := addParticipantKey_parts _ _ _ _ hk
    have hpart2 : room'.participants = s.room.participants := by
      rw [hp1, hroom]
    have hcr2 : room'.currentRound = s.room.currentRound := by
      rw [hp2, hroom]
    split
    · -- distribution branch
      split
      · next s3 first hd =>
        have hf3 := distributePublicKeys_facts _ _ hd
        have h3room : s3.room = room' := hf3.1
        have h3acc : s3.accepted = s1.accepted := hf3.2.1
        have h3tr : ∀ x ∈ s3.trace, x ∈ s1.trace ∨ x.2.isErrorBody = false :=
          hf3.2.2.2.2.2
        split
        · next s4 hsend =>
          have hf4 := sendTo_facts _ _ _ _ hsend rfl
          have h4room : s4.room = s3.room := hf4.1
          have h4acc : s4.accepted = s3.accepted := hf4.2.1
          have h4tr : ∀ x ∈ s4.trace, x ∈ s3.trace ∨ x.2.isErrorBody = false :=
            hf4.2.2.2.2.2
          refine ⟨?_, ?_, ?_, ?_⟩
          · show s4.room.participants = s.room.participants
            rw [h4room, h3room]
            exact hpart2
          · show s4.accepted = s.accepted
            rw [h4acc, h3acc, hacc]
          · show s4.room.currentRound = s.room.currentRound
            rw [h4room, h3room]
            exact hcr2
          · intro x hx
            have hx2 : x ∈ s4.trace := hx
            rcases h4tr x hx2 with hx3 | hx3
            · rcases h3tr x hx3 with hx4 | hx4
              · rw [htr] at hx4
                exact Or.inl hx4
              · exact Or.inr hx4
            · exact Or.inr hx3
        · next s4 hsend =>
          have hf4 := sendTo_facts _ _ _ _ hsend rfl
          have h4room : s4.room = s3.room := hf4.1
          have h4acc : s4.accepted = s3.accepted := hf4.2.1
          have h4tr : ∀ x ∈ s4.trace, x ∈ s3.trace ∨ x.2.isErrorBody = false :=
            hf4.2.2.2.2.2
          refine ⟨?_, ?_, ?_, ?_⟩
          · show s4.room.participants = s.room.participants
            rw [h4room, h3room]
            exact hpart2
          · show s4.accepted = s.accepted
            rw [h4acc, h3acc, hacc]
          · show s4.room.currentRound = s.room.currentRound
            rw [h4room, h3room]
            exact hcr2
          · intro x hx
            have hx2 : x ∈ s4.trace := hx
            rcases h4tr x hx2 with hx3 | hx3
            · rcases h3tr x hx3 with hx4 | hx4
              · rw [htr] at hx4
                exact Or.inl hx4
              · exact Or.inr hx4
            · exact Or.inr hx3
        · next s4 hsend =>
          have hf4 := sendTo_facts _ _ _ _ hsend rfl
          have h4room : s4.room = s3.room := hf4.1
          have h4acc : s4.accepted = s3.accepted := hf4.2.1
          have h4tr : ∀ x ∈ s4.trace, x ∈ s3.trace ∨ x.2.isErrorBody = false :=
            hf4.2.2.2.2.2
          refine ⟨?_, ?_, ?_, ?_⟩
          · show s4.room.participants = s.room.participants
            rw [h4room, h3room]
            exact hpart2
          · show s4.accepted = s.accepted
            rw [h4acc, h3acc, hacc]
          · show s4.room.currentRound = s.room.currentRound
            rw [h4room, h3room]
            exact hcr2
          · intro x hx
            have hx2 : x ∈ s4.trace := hx
            rcases h4tr x hx2 with hx3 | hx3
            · rcases h3tr x hx3 with hx4 | hx4
              · rw [htr] at hx4
                exact Or.inl hx4
              · exact Or.inr hx4
            · exact Or.inr hx3
      · next s3 hd =>
        have hf3 := distributePublicKeys_facts _ _ hd
        have h3room : s3.room = room' := hf3.1
        have h3acc : s3.accepted = s1.accepted := hf3.2.1
        have h3tr : ∀ x ∈ s3.trace, x ∈ s1.trace ∨ x.2.isErrorBody = false :=
          hf3.2.2.2.2.2
        refine ⟨?_, ?_, ?_, ?_⟩
        · show s3.room.participants = s.room.participants
          rw [h3room]
          exact hpart2
        · show s3.accepted = s.accepted
          rw [h3acc, hacc]
        · show s3.room.currentRound = s.room.currentRound
          rw [h3room]
          exact hcr2
        · intro x hx
          have hx2 : x ∈ s3.trace := hx
          rcases h3tr x hx2 with hx3 | hx3
          · rw [htr] at hx3
            exact Or.inl hx3
          · exact Or.inr hx3
      · next s3 hd =>
        have hf3 := distributePublicKeys_facts _ _ hd
        have h3room : s3.room = room' := hf3.1
        have h3acc : s3.accepted = s1.accepted := hf3.2.1
        have h3tr : ∀ x ∈ s3.trace, x ∈ s1.trace ∨ x.2.isErrorBody = false :=
          hf3.2.2.2.2.2
        refine ⟨?_, ?_, ?_, ?_⟩
        · show s3.room.participants = s.room.participants
          rw [h3room]
          exact hpart2
        · show s3.accepted = s.accepted
          rw [h3acc, hacc]
        · show s3.room.currentRound = s.room.currentRound
          rw [h3room]
          exact hcr2
        · intro x hx
          have hx2 : x ∈ s3.trace := hx
          rcases h3tr x hx2 with hx3 | hx3
          · rw [htr] at hx3
            exact Or.inl hx3
          · exact Or.inr hx3
    · refine ⟨hpart2, ?_, hcr2, ?_⟩
      · exact hacc
      · intro x hx
        have hx2 : x ∈ s1.trace := hx
        rw [htr] at hx2
        exact Or.inl hx2

/-- When the sender is the participant of the current round,
`pass_decoded_outputs` succeeds and advances the round. -/
theorem passDecodedOutputs_some_of (r : Room) (u : Nat)
    (outs : List (List Nat))
    (hc : r.participants.get? r.currentRound = some u) :
    r.passDecodedOutputs u outs =
      some ({ r with outputs := outs, currentRound := r.currentRound + 1 },
        r.currentRound + 1) := by
  unfold Room.passDecodedOutputs
  rw [if_pos hc]

/-- The `ShuffleRound` handler keeps the participant list, emits no
`Error` event, fails on a wrong sender, and on the correct sender appends
the sender to the accepted list and advances the round. -/
theorem eventShuffleRound_facts (s : RoomConn) (u : Nat)
    (outs : List (List Nat)) :
    (s.eventShuffleRound u outs).state.room.participants =
      s.room.participants ∧
    (∀ x ∈ (s.eventShuffleRound u outs).state.trace,
      x ∈ s.trace ∨ x.2.isErrorBody = false) ∧
    (s.room.participants.get? s.room.currentRound ≠ some u →
      s.eventShuffleRound u outs = .err s) ∧
    (s.room.participants.get? s.room.currentRound = some u →
      (s.eventShuffleRound u outs).state.accepted = s.accepted ++ [u] ∧
      (s.eventShuffleRound u outs).state.room.currentRound =
        s.room.currentRound + 1) := by
  simp only [RoomConn.eventShuffleRound]
  split
  · next heq =>
    refine ⟨rfl, fun x hx => Or.inl hx, fun _ => rfl, ?_⟩
    intro hc
    have hsome := passDecodedOutputs_some_of s.room u outs hc
    rw [heq] at hsome
    cases hsome
  · next room' rd hsome =>
    obtain ⟨hc, hr', hrd⟩ := passDecodedOutputs_some _ _ _ _ _ hsome
    subst hr'
    subst hrd
    split
    · -- distributeOutputs branch
      have hf := distributeOutputs_facts
        ({ s with
            room := { s.room with
                        outputs := outs,
                        currentRound := s.room.currentRound + 1 },
            accepted := s.accepted ++ [u] }) _ rfl
      refine ⟨?_, ?_, ?_, ?_⟩
      · exact (congrArg Room.participants hf.1).trans rfl
      · intro x hx
        rcases hf.2.2.2.2.2 x hx with h | h
        · exact Or.inl h
        · exact Or.inr h
      · intro hne
        exact absurd hc hne
      · intro _
        refine ⟨hf.2.1.trans rfl, ?_⟩
        exact (congrArg Room.currentRound hf.1).trans rfl
    · split
      · next nxt hget =>
        have hf := sendTo_facts
          ({ s with
              room := { s.room with
                          outputs := outs,
                          currentRound := s.room.currentRound + 1 },
              accepted := s.accepted ++ [u] }) nxt
          (Body.encodedOutputs outs) _ rfl rfl
        refine ⟨?_, ?_, ?_, ?_⟩
        · exact (congrArg Room.participants hf.1).trans rfl
        · intro x hx
          rcases hf.2.2.2.2.2 x hx with h | h
          · exact Or.inl h
          · exact Or.inr h
        · intro hne
          exact absurd hc hne
        · intro _
          exact ⟨hf.2.1.trans rfl, (congrArg Room.currentRound hf.1).trans rfl⟩
      · next hget =>
        refine ⟨rfl, fun x hx => Or.inl hx, ?_, ?_⟩
        · intro hne
          exact absurd hc hne
        · intro _
          exact ⟨rfl, rfl⟩

/-- The `SignedOutput` handler never changes the participant list, the
round counter or the accepted list, and never emits an `Error` event. -/
theorem eventSignedOutput_facts (s : RoomConn) (u sig : Nat) :
    (s.eventSignedOutput u sig).state.room.participants =
      s.room.participants ∧
    (s.eventSignedOutput u sig).state.accepted = s.accepted ∧
    (s.eventSignedOutput u sig).state.room.currentRound =
      s.room.currentRound ∧
    ∀ x ∈ (s.eventSignedOutput u sig).state.trace,
      x ∈ s.trace ∨ x.2.isErrorBody = false := by
  simp only [RoomConn.eventSignedOutput]
  split
  · exact ⟨rfl, rfl, rfl, fun x hx => Or.inl hx⟩
  · next room' hsome =>
    obtain ⟨hnone, hr'⟩ := passOutputsSignature_some _ _ _ _ hsome
    subst hr'
    split
    · split
      · exact ⟨rfl, rfl, rfl, fun x hx => Or.inl hx⟩
      · next hv hch =>
        refine ⟨rfl, rfl, rfl, ?_⟩
        intro x hx
        have hx2 : x ∈ s.trace ++ s.streams.map
            (fun v => (v, Body.shuffleTxHash (u256BeBytes hv))) := hx
        rcases List.mem_append.mp hx2 with h2 | h2
        · exact Or.inl h2
        · obtain ⟨v, _, rfl⟩ := List.mem_map.mp h2
          exact Or.inr rfl
    · exact ⟨rfl, rfl, rfl, fun x hx => Or.inl hx⟩

/-- One dispatched event preserves the participant list and emits no
`Error` event; the accepted list and round either stay unchanged or
advance together by the participant of the current round. -/
theorem handleEvent_facts (s : RoomConn) (e : RoomEvents) :
    (s.handleEvent e).state.room.participants = s.room.participants ∧
    (∀ x ∈ (s.handleEvent e).state.trace,
      x ∈ s.trace ∨ x.2.isErrorBody = false) ∧
    ((s.handleEvent e).state.accepted = s.accepted ∧
       (s.handleEvent e).state.room.currentRound = s.room.currentRound ∨
     ∃ u, s.room.participants.get? s.room.currentRound = some u ∧
       (s.handleEvent e).state.accepted = s.accepted ++ [u] ∧
       (s.handleEvent e).state.room.currentRound =
         s.room.currentRound + 1) := by
  cases e with
  | addParticipant u pk =>
    obtain ⟨h1, h2, h3, h4⟩ := eventAddParticipant_facts s u pk
    exact ⟨h1, h4, Or.inl ⟨h2, h3⟩⟩
  | shuffleRound u outs =>
    obtain ⟨h1, h2, h3, h4⟩ := eventShuffleRound_facts s u outs
    by_cases hc : s.room.participants.get? s.room.currentRound = some u
    · obtain ⟨ha, hr⟩ := h4 hc
      exact ⟨h1, h2, Or.inr ⟨u, hc, ha, hr⟩⟩
    · have herr := h3 hc
      have ha : (s.eventShuffleRound u outs).state.accepted = s.accepted := by
        rw [herr]
        exact rfl
      have hr : (s.eventShuffleRound u outs).state.room.currentRound =
          s.room.currentRound := by
        rw [herr]
        exact rfl
      exact ⟨h1, h2, Or.inl ⟨ha, hr⟩⟩
  | signedOutput u sig =>
    obtain ⟨h1, h2, h3, h4⟩ := eventSignedOutput_facts s u sig
    exact ⟨h1, h4, Or.inl ⟨h2, h3⟩⟩

/-- The accepted-senders invariant `accepted = participants.take round` is
preserved by one handler step. -/
theorem step_invariant (s s' : RoomConn)
    (hf1 : s'.room.participants = s.room.participants)
    (hf3 : s'.accepted = s.accepted ∧
        s'.room.currentRound = s.room.currentRound ∨
      ∃ u, s.room.participants.get? s.room.currentRound = some u ∧
        s'.accepted = s.accepted ++ [u] ∧
        s'.room.currentRound = s.room.currentRound + 1)
    (hI1 : s.accepted = s.room.participants.take s.room.currentRound)
    (hI2 : s.room.currentRound ≤ s.room.participants.length) :
    s'.accepted = s'.room.participants.take s'.room.currentRound ∧
    s'.room.currentRound ≤ s'.room.participants.length := by
  rcases hf3 with ⟨ha, hr⟩ | ⟨u, hc, ha, hr⟩
  · constructor
    · rw [ha, hr, hf1]
      exact hI1
    · rw [hr, hf1]
      exact hI2
  · have hlt : s.room.currentRound < s.room.participants.length := by
      obtain ⟨hlt', _⟩ := List.get?_eq_some.mp hc
      exact hlt'
    have hg : s.room.participants[s.room.currentRound]? = some u := by
      rw [← List.get?_eq_getElem?]
      exact hc
    have htake : s.room.participants.take (s.room.currentRound + 1) =
        s.room.participants.take s.room.currentRound ++ [u] := by
      rw [List.take_succ, hg]
      rfl
    constructor
    · rw [ha, hr, hf1, htake, hI1]
    · rw [hr, hf1]
      omega

/-- Invariants of a whole actor run: the participant list is preserved,
the accepted-prefix invariant is maintained, and every event in the final
trace was present initially or is not an `Error` event. -/
theorem run_facts (evs : List RoomEvents) : ∀ s : RoomConn,
    (s.run evs).state.room.participants = s.room.participants ∧
    (s.accepted = s.room.participants.take s.room.currentRound →
      s.room.currentRound ≤ s.room.participants.length →
      (s.run evs).state.accepted =
        (s.run evs).state.room.participants.take
          (s.run evs).state.room.currentRound ∧
      (s.run evs).state.room.currentRound ≤
        (s.run evs).state.room.participants.length) ∧
    ∀ x ∈ (s.run evs).state.trace, x ∈ s.trace ∨ x.2.isErrorBody = false := by
  induction evs with
  | nil =>
    intro s
    exact ⟨rfl, fun h1 h2 => ⟨h1, h2⟩, fun x hx => Or.inl hx⟩
  | cons e rest ih =>
    intro s
    obtain ⟨hf1, hf2, hf3⟩ := handleEvent_facts s e
    cases hh : s.handleEvent e with
    | ok s' =>
      have hrw : s.run (e :: rest) = s'.run rest := by
        simp only [RoomConn.run]
        rw [hh]
      rw [hh] at hf1 hf2 hf3
      have hf1' : s'.room.participants = s.room.participants := hf1
      have hf2' : ∀ x ∈ s'.trace, x ∈ s.trace ∨ x.2.isErrorBody = false := hf2
      have hf3' : s'.accepted = s.accepted ∧
          s'.room.currentRound = s.room.currentRound ∨
        ∃ u, s.room.participants.get? s.room.currentRound = some u ∧
          s'.accepted = s.accepted ++ [u] ∧
          s'.room.currentRound = s.room.currentRound + 1 := hf3
      obtain ⟨g1, g2, g3⟩ := ih s'
      rw [hrw]
      refine ⟨?_, ?_, ?_⟩
      · rw [g1]
        exact hf1'
      · intro hI1 hI2
        obtain ⟨hJ1, hJ2⟩ := step_invariant s s' hf1' hf3' hI1 hI2
        exact g2 hJ1 hJ2
      · intro x hx
        rcases g3 x hx with h | h
        · rcases hf2' x h with h2 | h2
          · exact Or.inl h2
          · exact Or.inr h2
        · exact Or.inr h
    | err s' =>
      have hrw : s.run (e :: rest) = .failed s' := by
        simp only [RoomConn.run]
        rw [hh]
      rw [hh] at hf1 hf2 hf3
      have hf1' : s'.room.participants = s.room.participants := hf1
      have hf2' : ∀ x ∈ s'.trace, x ∈ s.trace ∨ x.2.isErrorBody = false := hf2
      have hf3' : s'.accepted = s.accepted ∧
          s'.room.currentRound = s.room.currentRound ∨
        ∃ u, s.room.participants.get? s.room.currentRound = some u ∧
          s'.accepted = s.accepted ++ [u] ∧
          s'.room.currentRound = s.room.currentRound + 1 := hf3
      rw [hrw]
      refine ⟨hf1', ?_, hf2'⟩
      intro hI1 hI2
      exact step_invariant s s' hf1' hf3' hI1 hI2
    | panicked s' =>
      have hrw : s.run (e :: rest) = .panicked s' := by
        simp only [RoomConn.run]
        rw [hh]
      rw [hh] at hf1 hf2 hf3
      have hf1' : s'.room.participants = s.room.participants := hf1
      have hf2' : ∀ x ∈ s'.trace, x ∈ s.trace ∨ x.2.isErrorBody = false := hf2
      have hf3' : s'.accepted = s.accepted ∧
          s'.room.currentRound = s.room.currentRound ∨
        ∃ u, s.room.participants.get? s.room.currentRound = some u ∧
          s'.accepted = s.accepted ++ [u] ∧
          s'.room.currentRound = s.room.currentRound + 1 := hf3
      rw [hrw]
      refine ⟨hf1', ?_, hf2'⟩
      intro hI1 hI2
      exact step_invariant s s' hf1' hf3' hI1 hI2

/-- Claim C3: starting from a fresh room (round 0, nothing accepted), after
any event sequence the accepted `ShuffleRound` senders are exactly
`participants.take currentRound` — the prefix `participants[0], …,
participants[currentRound-1]` in order — the round never exceeds `N`, a
room that completes all `N` rounds has accepted exactly
`participants[0..N-1]`, and a `ShuffleRound` whose sender is not
`participants[currentRound]` makes the handler fail and the actor exit.
The turn check itself lives in `coin_shuffle_core`
(`pass_decoded_outputs`), modelled from the spec. -/
theorem room_turn_discipline (s : RoomConn) (evs : List RoomEvents)
    (hacc : s.accepted = []) (hround : s.room.currentRound = 0) :
    (s.run evs).state.room.participants = s.room.participants ∧
    (s.run evs).state.accepted =
      s.room.participants.take (s.run evs).state.room.currentRound ∧
    (s.run evs).state.room.currentRound ≤ s.room.participants.length ∧
    ((s.run evs).state.room.currentRound = s.room.participants.length →
      (s.run evs).state.accepted = s.room.participants) ∧
    ∀ (s' : RoomConn) (u : Nat) (outs : List (List Nat))
      (rest : List RoomEvents),
      s'.room.participants.get? s'.room.currentRound ≠ some u →
      s'.run (RoomEvents.shuffleRound u outs :: rest) = .failed s' := by
  obtain ⟨g1, g2, _⟩ := run_facts evs s
  have hI1 : s.accepted = s.room.participants.take s.room.currentRound := by
    rw [hacc, hround]
    rfl
  have hI2 : s.room.currentRound ≤ s.room.participants.length := by
    rw [hround]
    exact Nat.zero_le _
  obtain ⟨hJ1, hJ2⟩ := g2 hI1 hI2
  refine ⟨g1, ?_, ?_, ?_, ?_⟩
  · rw [hJ1, g1]
  · rw [← g1]
    exact hJ2
  · intro hN
    rw [hJ1, g1, hN, List.take_length]
  · intro s' u outs rest hne
    have herr := (eventShuffleRound_facts s' u outs).2.2.1 hne
    simp only [RoomConn.run, RoomConn.handleEvent]
    rw [herr]

/-- Witness for `room_turn_discipline`: in the live two-party room, a
`ShuffleRound` from participant `1` (the round-0 participant) is accepted
and the accepted list equals the matching prefix. -/
theorem room_turn_discipline_witness :
    connLive.accepted = [] ∧
    (connLive.run [RoomEvents.shuffleRound 1 [[9]]]).state.accepted =
      connLive.room.participants.take
        ((connLive.run [RoomEvents.shuffleRound 1 [[9]]]).state.room.currentRound) := by
  have h := room_turn_discipline connLive [RoomEvents.shuffleRound 1 [[9]]]
    rfl rfl
  exact ⟨rfl, h.2.1⟩

/-- Claim C5 (amended): the room actor never sends an `Error` event on any
stream in any run — on a handler failure the loop exits immediately
without notifying the surviving streams. -/
theorem room_no_error_broadcast (s : RoomConn) (evs : List RoomEvents)
    (h : ∀ x ∈ s.trace, x.2.isErrorBody = false) :
    (∀ x ∈ (s.run evs).state.trace, x.2.isErrorBody = false) ∧
    ∀ (e : RoomEvents) (rest : List RoomEvents) (s' : RoomConn),
      s.handleEvent e = .err s' → s.run (e :: rest) = .failed s' := by
  constructor
  · intro x hx
    rcases (run_facts evs s).2.2 x hx with h2 | h2
    · exact h x h2
    · exact h2
  · intro e rest s' hfail
    simp only [RoomConn.run]
    rw [hfail]

/-- Witness for `room_no_error_broadcast`: the wrong-turn event makes the
actor exit with a handler failure. -/
theorem room_no_error_broadcast_witness :
    connLive.run [RoomEvents.shuffleRound 2 [[9]]] = .failed connLive := by
  have h := room_no_error_broadcast connLive []
    (by intro x hx; simp [connLive] at hx)
  exact h.2 (RoomEvents.shuffleRound 2 [[9]]) [] connLive rfl

/-- A fresh-style actor state (stream count equal to the `room_size`
counter) that handles any sequence of distinct `AddParticipant` events for
room members sends nothing at all and idles until the deadline: the
`len == room_size` comparison never succeeds because `room_size` is
incremented only after it. -/
theorem run_distinct_adds (adds : List (Nat × RsaKey)) :
    ∀ s : RoomConn, s.streams.length = s.roomSize →
      (adds.map Prod.fst).Nodup →
      (∀ u ∈ adds.map Prod.fst, u ∉ s.streams) →
      (∀ u ∈ adds.map Prod.fst, u ∈ s.room.participants) →
      ∃ sf, s.run (adds.map fun a => RoomEvents.addParticipant a.1 a.2) =
        .deadline sf ∧ sf.trace = s.trace := by
  induction adds with
  | nil =>
    intro s _ _ _ _
    exact ⟨s, rfl, rfl⟩
  | cons a rest ih =>
    intro s hlen hnd hnotin hin
    have hu_notin : a.1 ∉ s.streams := hnotin a.1 (by simp)
    have hu_in : a.1 ∈ s.room.participants := hin a.1 (by simp)
    have hstep : s.handleEvent (RoomEvents.addParticipant a.1 a.2) =
        Step.ok { s with
                   streams := s.streams ++ [a.1],
                   room := { s.room with
                               keyMap := fun v => if v = a.1 then some a.2
                                                  else s.room.keyMap v },
                   roomSize := s.roomSize + 1 } := by
      show s.eventAddParticipant a.1 a.2 = _
      simp [RoomConn.eventAddParticipant, RoomConn.insertStream,
        Room.addParticipantKey, hu_notin, hu_in, hlen]
    have hnd' : (rest.map Prod.fst).Nodup := by
      simp only [List.map_cons, List.nodup_cons] at hnd
      exact hnd.2
    have hhead : a.1 ∉ rest.map Prod.fst := by
      simp only [List.map_cons, List.nodup_cons] at hnd
      exact hnd.1
    obtain ⟨sf, hrun, htr⟩ := ih
      { s with
         streams := s.streams ++ [a.1],
         room := { s.room with
                     keyMap := fun v => if v = a.1 then some a.2
                                        else s.room.keyMap v },
         roomSize := s.roomSize + 1 }
      (by simp [hlen])
      hnd'
      (by
        intro u hu
        have h1 : u ∉ s.streams := hnotin u (by simp [hu])
        have h2 : u ≠ a.1 := by
          intro heq
          exact hhead (heq ▸ hu)
        simp [h1, h2])
      (by
        intro u hu
        exact hin u (by simp [hu]))
    refine ⟨sf, ?_, ?_⟩
    · show s.run ((a :: rest).map fun a => RoomEvents.addParticipant a.1 a.2)
        = RunResult.deadline sf
      simp only [List.map_cons, RoomConn.run]
      rw [hstep]
      exact hrun
    · exact htr

/-- A `filterMap` over a list on which the partial map is total is a
`map`. -/
theorem filterMap_eq_map_of (l : List Nat) (f : Nat → Option RsaKey)
    (K : Nat → RsaKey) (h : ∀ p ∈ l, f p = some (K p)) :
    l.filterMap f = l.map K := by
  induction l with
  | nil => rfl
  | cons a t ih =>
    rw [List.filterMap_cons, h a (by simp), List.map_cons,
      ih (fun p hp => h p (by simp [hp]))]

/-- With a duplicate-free participant list whose key map is total, the
core key list of `participants[i]` is the keys of
`participants[i+1 .. N-1]` in participant order. -/
theorem participantKeys_eq (r : Room) (K : Nat → RsaKey)
    (hnd : r.participants.Nodup)
    (hkeys : ∀ p ∈ r.participants, r.keyMap p = some (K p))
    (i : Nat) (h : i < r.participants.length) :
    r.participantKeys (r.participants.get ⟨i, h⟩) =
      (r.participants.drop (i + 1)).map K := by
  unfold Room.participantKeys
  have hidx : r.participants.indexOf (r.participants.get ⟨i, h⟩) = i := by
    simpa using List.indexOf_getElem hnd i h
  rw [hidx]
  exact filterMap_eq_map_of _ _ _
    (fun p hp => hkeys p (List.mem_of_mem_drop hp))

/-- When every participant stream is connected, the `ShuffleInfo` loop
sends exactly one event per participant, in room order. -/
theorem distributeAux_trace (us : List Nat) : ∀ s : RoomConn,
    (∀ u ∈ us, u ∈ s.streams) →
    distributeAux s us =
      .ok { s with trace := s.trace ++
                     us.map (fun u => (u, s.shuffleInfoBody u)) } := by
  induction us with
  | nil =>
    intro s _
    show Step.ok s = _
    simp
  | cons u ustail ih =>
    intro s hmem
    have hu : u ∈ s.streams := hmem u (by simp)
    have hsend : s.sendTo u (s.shuffleInfoBody u) =
        .ok { s with trace := s.trace ++ [(u, s.shuffleInfoBody u)] } := by
      unfold RoomConn.sendTo
      rw [if_pos hu]
    show (match s.sendTo u (s.shuffleInfoBody u) with
      | .ok s' => distributeAux s' ustail
      | .err s' => .err s'
      | .panicked s' => .panicked s') = _
    rw [hsend]
    show distributeAux
      { s with trace := s.trace ++ [(u, s.shuffleInfoBody u)] } ustail = _
    rw [ih { s with trace := s.trace ++ [(u, s.shuffleInfoBody u)] }
      (by intro v hv; exact hmem v (by simp [hv]))]
    simp [RoomConn.shuffleInfoBody]

/-- Claim C4: with all streams connected and a total key map over a
duplicate-free participant list, `distribute_public_keys` sends to each
`participants[i]` a `ShuffleInfo` whose key list is the wire form of the
keys of `participants[i+1 .. N-1]` reversed — strictly decreasing index
order `K(N-1), …, K(i+1)` — with a freshly minted token, and returns
`participants[0]`; in particular the last participant receives an empty
list and participant 0 receives all keys except its own. -/
theorem distribute_public_keys_order (s : RoomConn) (K : Nat → RsaKey)
    (hnd : s.room.participants.Nodup)
    (hkeys : ∀ p ∈ s.room.participants, s.room.keyMap p = some (K p))
    (hstreams : ∀ p ∈ s.room.participants, p ∈ s.streams)
    (hne : s.room.participants ≠ []) :
    s.distributePublicKeys = .ok
      { s with trace := s.trace ++ s.room.participants.map
                  (fun p => (p, s.shuffleInfoBody p)) }
      (s.room.participants.head hne) ∧
    ∀ i (h : i < s.room.participants.length),
      s.shuffleInfoBody (s.room.participants.get ⟨i, h⟩) =
        Body.shuffleInfo
          ((((s.room.participants.drop (i + 1)).map K).map
            RsaKey.toProto).reverse)
          (s.mintToken (s.room.participants.get ⟨i, h⟩)) := by
  constructor
  · have haux := distributeAux_trace s.room.participants s hstreams
    unfold RoomConn.distributePublicKeys
    rw [haux]
    have hh : ({ s with trace := s.trace ++ s.room.participants.map
                           (fun p => (p, s.shuffleInfoBody p)) }
        : RoomConn).room.participants.head? =
        some (s.room.participants.head hne) :=
      List.head?_eq_head hne
    show (match ({ s with trace := s.trace ++ s.room.participants.map
                             (fun p => (p, s.shuffleInfoBody p)) }
        : RoomConn).room.participants.head? with
      | some first => DistResult.ok
          { s with trace := s.trace ++ s.room.participants.map
                      (fun p => (p, s.shuffleInfoBody p)) } first
      | none => DistResult.panicked
          { s with trace := s.trace ++ s.room.participants.map
                      (fun p => (p, s.shuffleInfoBody p)) }) = _
    rw [hh]
  · intro i h
    unfold RoomConn.shuffleInfoBody
    rw [participantKeys_eq s.room K hnd hkeys i h]

/-- Witness for `distribute_public_keys_order`: in the two-party room with
keys `(p, 3)`, participant 1 receives exactly the key of participant 2 and
participant 2 receives the empty list. -/
theorem distribute_public_keys_order_witness :
    connKeys.shuffleInfoBody 1 =
      Body.shuffleInfo [RsaKey.toProto ⟨2, 3⟩] "t" ∧
    connKeys.shuffleInfoBody 2 = Body.shuffleInfo [] "t" := by
  have h := distribute_public_keys_order connKeys (fun p => ⟨p, 3⟩)
    (by decide) (fun p _ => rfl) (by decide) (by decide)
  constructor
  · exact (h.2 0 (by decide)).trans rfl
  · exact (h.2 1 (by decide)).trans rfl

/-- Claim C6 (amended): once the recorded signature set covers every
participant, and only then, the chain connector's `transfer` is invoked
with the room's inputs and outputs; on success the actor sends
`ShuffleTxHash` to every connected stream and the loop continues (the
actor does not terminate until a later deadline tick or error); on
submission failure the actor panics on `.unwrap()` without sending
anything. -/
theorem signed_output_transfer (s : RoomConn) (u sig : Nat) (room' : Room)
    (hpass : s.room.passOutputsSignature u sig = some room') :
    (¬ room'.isSignaturePassed = true →
      s.eventSignedOutput u sig = .ok { s with room := room' }) ∧
    (room'.isSignaturePassed = true → s.chain = none →
      s.eventSignedOutput u sig = .panicked
        { s with room := room',
                 chainCalls := s.chainCalls ++
                   [(room'.participants, room'.outputs)] }) ∧
    (∀ h, room'.isSignaturePassed = true → s.chain = some h →
      s.eventSignedOutput u sig = .ok
        { s with room := room',
                 chainCalls := s.chainCalls ++
                   [(room'.participants, room'.outputs)],
                 trace := s.trace ++ s.streams.map
                            (fun v => (v, Body.shuffleTxHash (u256BeBytes h))) }) ∧
    ((s.eventSignedOutput u sig).state.chainCalls ≠ s.chainCalls ↔
      room'.isSignaturePassed = true) ∧
    ∀ (rest : List RoomEvents) (h : Nat), room'.isSignaturePassed = true →
      s.chain = some h →
      s.run (RoomEvents.signedOutput u sig :: rest) =
        RoomConn.run
          { s with room := room',
                   chainCalls := s.chainCalls ++
                     [(room'.participants, room'.outputs)],
                   trace := s.trace ++ s.streams.map
                              (fun v => (v, Body.shuffleTxHash (u256BeBytes h))) }
          rest := by
  have hnotpass : ¬ room'.isSignaturePassed = true →
      s.eventSignedOutput u sig = .ok { s with room := room' } := by
    intro hns
    simp [RoomConn.eventSignedOutput, hpass, hns]
  have hpanic : room'.isSignaturePassed = true → s.chain = none →
      s.eventSignedOutput u sig = .panicked
        { s with room := room',
                 chainCalls := s.chainCalls ++
                   [(room'.participants, room'.outputs)] } := by
    intro hs hcn
    simp [RoomConn.eventSignedOutput, hpass, hs, hcn]
  have hok : ∀ h, room'.isSignaturePassed = true → s.chain = some h →
      s.eventSignedOutput u sig = .ok
        { s with room := room',
                 chainCalls := s.chainCalls ++
                   [(room'.participants, room'.outputs)],
                 trace := s.trace ++ s.streams.map
                            (fun v => (v, Body.shuffleTxHash (u256BeBytes h))) } := by
    intro h hs hcs
    simp [RoomConn.eventSignedOutput, RoomConn.broadcastTxHash, hpass, hs, hcs]
  refine ⟨hnotpass, hpanic, hok, ?_, ?_⟩
  · by_cases hs : room'.isSignaturePassed = true
    · refine ⟨fun _ => hs, fun _ => ?_⟩
      cases hchain : s.chain with
      | none =>
        rw [hpanic hs hchain]
        intro hcontra
        have hlen := congrArg List.length hcontra
        simp [Step.state] at hlen
      | some h =>
        rw [hok h hs hchain]
        intro hcontra
        have hlen := congrArg List.length hcontra
        simp [Step.state] at hlen
    · rw [hnotpass hs]
      simp [hs, Step.state]
  · intro rest h hs hcs
    simp only [RoomConn.run, RoomConn.handleEvent]
    rw [hok h hs hcs]

/-- Witness for `signed_output_transfer`: the second signature in the
two-party room completes the signature set and triggers a chain call. -/
theorem signed_output_transfer_witness :
    ({ connSignedOk.room with
        signatures := fun v => if v = 2 then some 12
                               else connSignedOk.room.signatures v }
      : Room).isSignaturePassed = true ∧
    (connSignedOk.eventSignedOutput 2 12).state.chainCalls ≠
      connSignedOk.chainCalls := by
  have h := signed_output_transfer connSignedOk 2 12
    { connSignedOk.room with
       signatures := fun v => if v = 2 then some 12
                              else connSignedOk.room.signatures v }
    rfl
  exact ⟨by decide, h.2.2.2.1.mpr (by decide)⟩
